import Mathlib

/-!
Verification of the Amorce JS SDK signing-and-transport core (`src/dist/index.mjs`,
current v2.1.0 generation), shallowly embedded in Lean.

Modelling conventions:
* JS strings are represented as `List Nat` of their UTF-16 code units (all strings
  involved are ASCII, where code units, code points and UTF-8 bytes coincide).
* Byte arrays (`Uint8Array`) are `List Nat` with every element `< 256`.
* Fallible operations (JS `throw`) return `Option`/`Except`.
* External libraries called by the source are modelled as follows:
  - `fast-json-stable-stringify` and the base64 codec of `libsodium` are implemented
    concretely (they are deterministic byte-level algorithms);
  - the Ed25519 primitives of `libsodium` are idealized as a deterministic,
    message-binding signature scheme (see `SigBytes` below);
  - `p-retry` is modelled from its documented semantics: every rejection of the
    wrapped function is retried (up to `retries` times) unless it is a p-retry
    `AbortError`, which the SDK never throws.
-/

set_option maxRecDepth 10000

namespace AmorceSdk

/-- UTF-16 code units of an ASCII string literal. -/
def ascii (s : String) : List Nat := s.toList.map Char.toNat

/-! ## Base64 (libsodium `to_base64` / `from_base64`, variant ORIGINAL = standard with padding) -/

/-- The standard base64 alphabet as ASCII codes: A-Z, a-z, 0-9, `+`, `/`. -/
def b64Alphabet : List Nat :=
  (List.range 26).map (· + 65) ++ (List.range 26).map (· + 97) ++
    (List.range 10).map (· + 48) ++ [43, 47]

/-- Character for a 6-bit group. -/
def b64Char (n : Nat) : Nat := b64Alphabet.getD n 65

/-- Inverse lookup; `none` for characters outside the alphabet (e.g. `=` = 61). -/
def b64Val (c : Nat) : Option Nat :=
  let i := b64Alphabet.indexOf c
  if i < b64Alphabet.length then some i else none

/-- Standard base64 encoding with padding (`sodium.to_base64`, variant ORIGINAL). -/
def to_base64 : List Nat → List Nat
  | [] => []
  | [a] => [b64Char (a / 4), b64Char (a % 4 * 16), 61, 61]
  | [a, b] => [b64Char (a / 4), b64Char (a % 4 * 16 + b / 16), b64Char (b % 16 * 4), 61]
  | a :: b :: c :: rest =>
    b64Char (a / 4) :: b64Char (a % 4 * 16 + b / 16) ::
      b64Char (b % 16 * 4 + c / 64) :: b64Char (c % 64) :: to_base64 rest

/-- Strict base64 decoding (`sodium.from_base64`, variant ORIGINAL); `none` models the
exception thrown on malformed input. -/
def from_base64 : List Nat → Option (List Nat)
  | [] => some []
  | c1 :: c2 :: c3 :: c4 :: rest =>
    (b64Val c1).bind fun v1 =>
      (b64Val c2).bind fun v2 =>
        if c3 = 61 ∧ c4 = 61 ∧ rest = [] then
          some [v1 * 4 + v2 / 16]
        else
          (b64Val c3).bind fun v3 =>
            if c4 = 61 ∧ rest = [] then
              some [v1 * 4 + v2 / 16, v2 % 16 * 16 + v3 / 4]
            else
              (b64Val c4).bind fun v4 =>
                (from_base64 rest).map fun bs =>
                  (v1 * 4 + v2 / 16) :: (v2 % 16 * 16 + v3 / 4) :: (v3 % 4 * 64 + v4) :: bs
  | _ => none

theorem b64Val_b64Char : ∀ n, n < 64 → b64Val (b64Char n) = some n := by decide

theorem b64Char_ne_eq : ∀ n, n < 64 → b64Char n ≠ 61 := by decide

theorem from_to_base64 : ∀ bs : List Nat, (∀ b ∈ bs, b < 256) →
    from_base64 (to_base64 bs) = some bs
  | [], _ => by simp [to_base64, from_base64]
  | [a], h => by
    have ha : a < 256 := h a (by simp)
    have h1 : a / 4 < 64 := by omega
    have h2 : a % 4 * 16 < 64 := by omega
    simp only [to_base64, from_base64, b64Val_b64Char _ h1, b64Val_b64Char _ h2,
      Option.some_bind]
    rw [if_pos (by simp)]
    simp only [Option.some.injEq, List.cons.injEq, and_true]
    omega
  | [a, b], h => by
    have ha : a < 256 := h a (by simp)
    have hb : b < 256 := h b (by simp)
    have h1 : a / 4 < 64 := by omega
    have h2 : a % 4 * 16 + b / 16 < 64 := by omega
    have h3 : b % 16 * 4 < 64 := by omega
    simp only [to_base64, from_base64, b64Val_b64Char _ h1, b64Val_b64Char _ h2,
      b64Val_b64Char _ h3, Option.some_bind]
    rw [if_neg (by simp [b64Char_ne_eq _ h3]), if_pos (by simp)]
    simp only [Option.some.injEq, List.cons.injEq, and_true]
    exact ⟨by omega, by omega⟩
  | a :: b :: c :: rest0, h => by
    have ha : a < 256 := h a (by simp)
    have hb : b < 256 := h b (by simp)
    have hc : c < 256 := h c (by simp)
    have h1 : a / 4 < 64 := by omega
    have h2 : a % 4 * 16 + b / 16 < 64 := by omega
    have h3 : b % 16 * 4 + c / 64 < 64 := by omega
    have h4 : c % 64 < 64 := by omega
    have ih : from_base64 (to_base64 rest0) = some rest0 :=
      from_to_base64 rest0 (fun x hx => h x (by simp [hx]))
    have henc : to_base64 (a :: b :: c :: rest0) =
        b64Char (a / 4) :: b64Char (a % 4 * 16 + b / 16) ::
          b64Char (b % 16 * 4 + c / 64) :: b64Char (c % 64) :: to_base64 rest0 := by
      match rest0 with
      | [] => rfl
      | [_] => rfl
      | [_, _] => rfl
      | _ :: _ :: _ :: _ => rfl
    rw [henc]
    simp only [from_base64, b64Val_b64Char _ h1, b64Val_b64Char _ h2,
      b64Val_b64Char _ h3, b64Val_b64Char _ h4, Option.some_bind]
    rw [if_neg (by simp [b64Char_ne_eq _ h3]), if_neg (by simp [b64Char_ne_eq _ h4])]
    rw [ih]
    simp only [Option.map_some', Option.some.injEq, List.cons.injEq]
    exact ⟨by omega, by omega, by omega, trivial⟩
  termination_by bs => bs.length
  decreasing_by simp only [List.length_cons]; omega

/-! ## Whitespace (JS `\s`) and base64 output character facts -/

/-- JS regular-expression whitespace class `\s` (code units). -/
def jsWs (c : Nat) : Bool :=
  c ∈ [9, 10, 11, 12, 13, 32, 160, 5760, 8192, 8193, 8194, 8195, 8196, 8197, 8198,
    8199, 8200, 8201, 8202, 8232, 8233, 8239, 8287, 12288, 65279]

theorem b64Char_bounded_props : ∀ n, n < 64 → jsWs (b64Char n) = false ∧ b64Char n ≠ 45 := by
  decide

theorem b64Char_props (n : Nat) : jsWs (b64Char n) = false ∧ b64Char n ≠ 45 := by
  by_cases hn : n < 64
  · exact b64Char_bounded_props n hn
  · have hd : b64Char n = 65 := by
      unfold b64Char
      refine List.getD_eq_default _ _ ?_
      have : b64Alphabet.length = 64 := by decide
      omega
    rw [hd]
    exact ⟨by decide, by decide⟩

theorem to_base64_char_props : ∀ bs, ∀ c ∈ to_base64 bs, jsWs c = false ∧ c ≠ 45
  | [], c, hc => by simp [to_base64] at hc
  | [a], c, hc => by
    simp only [to_base64, List.mem_cons, List.not_mem_nil, or_false] at hc
    rcases hc with h | h | h | h <;> subst h
    · exact b64Char_props _
    · exact b64Char_props _
    · exact ⟨by decide, by decide⟩
    · exact ⟨by decide, by decide⟩
  | [a, b], c, hc => by
    simp only [to_base64, List.mem_cons, List.not_mem_nil, or_false] at hc
    rcases hc with h | h | h | h <;> subst h
    · exact b64Char_props _
    · exact b64Char_props _
    · exact b64Char_props _
    · exact ⟨by decide, by decide⟩
  | a :: b :: c0 :: rest0, c, hc => by
    have henc : to_base64 (a :: b :: c0 :: rest0) =
        b64Char (a / 4) :: b64Char (a % 4 * 16 + b / 16) ::
          b64Char (b % 16 * 4 + c0 / 64) :: b64Char (c0 % 64) :: to_base64 rest0 := by
      match rest0 with
      | [] => rfl
      | [_] => rfl
      | [_, _] => rfl
      | _ :: _ :: _ :: _ => rfl
    rw [henc] at hc
    simp only [List.mem_cons] at hc
    rcases hc with h | h | h | h | h
    · subst h; exact b64Char_props _
    · subst h; exact b64Char_props _
    · subst h; exact b64Char_props _
    · subst h; exact b64Char_props _
    · exact to_base64_char_props rest0 c h
  termination_by bs => bs.length
  decreasing_by simp only [List.length_cons]; omega

/-! ## PEM encoding of the public key (`getPublicKeyPem`) and decoding (`pemToBytes`) -/

/-- The fixed 12-byte ASN.1 `SubjectPublicKeyInfo` header for Ed25519, copied from
`IdentityManager.getPublicKeyPem` in `src/dist/index.mjs`. -/
def spkiHeader : List Nat := [48, 42, 48, 5, 6, 3, 43, 101, 112, 3, 33, 0]

def beginMarker : List Nat := ascii "-----BEGIN PUBLIC KEY-----"

def endMarker : List Nat := ascii "-----END PUBLIC KEY-----"

/-- `IdentityManager.getPublicKeyPem`: base64 of header ++ raw key, framed by the
BEGIN/END lines (10 is `\n`). -/
def getPublicKeyPem (publicKey : List Nat) : List Nat :=
  beginMarker ++ ((10 :: to_base64 (spkiHeader ++ publicKey)) ++ ((10 :: endMarker) ++ [10]))

/-- JS `String.replace(plainString, "")`: remove the first occurrence of `pat`. -/
def removeFirst (pat : List Nat) : List Nat → List Nat
  | [] => []
  | c :: rest =>
    if pat.isPrefixOf (c :: rest) then (c :: rest).drop pat.length
    else c :: removeFirst pat rest

/-- `AmorceEnvelope.pemToBytes`: strip the BEGIN/END markers and all whitespace,
base64-decode, and keep the last 32 bytes when longer than 32. -/
def pemToBytes (pem : List Nat) : Option (List Nat) :=
  match from_base64 ((removeFirst endMarker (removeFirst beginMarker pem)).filter fun c => !jsWs c) with
  | some fullBytes =>
    some (if fullBytes.length > 32 then fullBytes.drop (fullBytes.length - 32) else fullBytes)
  | none => none

theorem isPrefixOf_append_self (l t : List Nat) : l.isPrefixOf (l ++ t) = true := by
  induction l with
  | nil => simp [List.isPrefixOf]
  | cons a l ih => simp [List.isPrefixOf, ih]

theorem removeFirst_append_self (pat rest : List Nat) :
    removeFirst pat (pat ++ rest) = rest := by
  cases pat with
  | nil =>
    cases rest with
    | nil => rfl
    | cons c r => simp [removeFirst]
  | cons p ps =>
    have hpre : (p :: ps).isPrefixOf (p :: (ps ++ rest)) = true := by
      exact isPrefixOf_append_self (p :: ps) rest
    have hstep : removeFirst (p :: ps) (p :: (ps ++ rest)) =
        (p :: (ps ++ rest)).drop (p :: ps).length := by
      rw [removeFirst, if_pos hpre]
    simp only [List.cons_append, hstep]
    exact List.drop_left (p :: ps) rest

theorem removeFirst_cons_of_ne (d x : Nat) (tl l : List Nat) (hx : x ≠ d) :
    removeFirst (d :: tl) (x :: l) = x :: removeFirst (d :: tl) l := by
  have hbeq : (d == x) = false := by
    simp only [beq_eq_false_iff_ne, ne_eq]
    exact fun hdx => hx hdx.symm
  have hpre : (d :: tl).isPrefixOf (x :: l) = false := by
    simp [List.isPrefixOf, hbeq]
  rw [removeFirst, if_neg (by simp [hpre])]

theorem removeFirst_append_of_ne_head (d : Nat) (tl : List Nat) :
    ∀ xs ys : List Nat, (∀ c ∈ xs, c ≠ d) →
      removeFirst (d :: tl) (xs ++ ys) = xs ++ removeFirst (d :: tl) ys
  | [], ys, _ => by simp
  | x :: xs, ys, h => by
    rw [List.cons_append, removeFirst_cons_of_ne d x tl (xs ++ ys) (h x (by simp))]
    rw [removeFirst_append_of_ne_head d tl xs ys fun c hc => h c (by simp [hc])]
    rfl

/-- PEM round trip: encoding a 32-byte raw Ed25519 key to PEM and decoding it back
recovers exactly the key. -/
theorem pemToBytes_getPublicKeyPem (k : List Nat) (hlen : k.length = 32)
    (hbytes : ∀ b ∈ k, b < 256) : pemToBytes (getPublicKeyPem k) = some k := by
  have hsp : ∀ b ∈ spkiHeader, b < 256 := by decide
  have hfull : ∀ b ∈ spkiHeader ++ k, b < 256 := by
    intro b hb
    rcases List.mem_append.mp hb with h | h
    · exact hsp b h
    · exact hbytes b h
  have hchars : ∀ c ∈ to_base64 (spkiHeader ++ k), jsWs c = false ∧ c ≠ 45 := fun c hc =>
    to_base64_char_props _ c hc
  have hend : endMarker = 45 :: endMarker.drop 1 := by decide
  have hsplit : (10 :: to_base64 (spkiHeader ++ k)) ++ ((10 :: endMarker) ++ [10]) =
      ((10 :: to_base64 (spkiHeader ++ k)) ++ [10]) ++ (endMarker ++ [10]) := by simp
  have hstrip : removeFirst endMarker (removeFirst beginMarker (getPublicKeyPem k)) =
      ((10 :: to_base64 (spkiHeader ++ k)) ++ [10]) ++ [10] := by
    unfold getPublicKeyPem
    rw [removeFirst_append_self, hsplit, hend]
    rw [removeFirst_append_of_ne_head 45 (endMarker.drop 1) _ _ (by
      intro c hc
      simp only [List.append_eq, List.mem_append, List.mem_cons, List.not_mem_nil,
        or_false] at hc
      rcases hc with hc | hc
      · rcases hc with hc | hc
        · omega
        · exact (hchars c hc).2
      · omega)]
    rw [← hend, removeFirst_append_self]
  have hfilter : ((((10 :: to_base64 (spkiHeader ++ k)) ++ [10]) ++ [10]).filter
      fun c => !jsWs c) = to_base64 (spkiHeader ++ k) := by
    simp only [List.filter_append, List.filter_cons, List.filter_nil]
    have h10 : jsWs 10 = true := by decide
    simp only [h10, Bool.not_true, Bool.false_eq_true, if_false, List.filter_nil]
    rw [List.filter_eq_self.mpr fun c hc => by simp [(hchars c hc).1]]
    simp
  unfold pemToBytes
  rw [hstrip, hfilter, from_to_base64 _ hfull]
  have hl : (spkiHeader ++ k).length = 44 := by
    simp only [List.length_append, hlen]
    decide
  simp only [hl]
  have hgt : (44 : Nat) > 32 := by decide
  rw [if_pos hgt]
  have h12 : (44 : Nat) - 32 = spkiHeader.length := by decide
  rw [h12, List.drop_left]

/-! ## SHA-256 (node's `crypto.createHash("sha256")`, used by `getAgentId`)

A concrete implementation of FIPS 180-4 SHA-256 over `Nat` with explicit `% 2^32`
reductions (no machine integers). -/

/-- Reduce to a 32-bit word. -/
def w32 (n : Nat) : Nat := n % 4294967296

/-- 32-bit right rotation (for `x < 2^32`, `1 ≤ n ≤ 31`). -/
def rotr32 (x n : Nat) : Nat := x / 2 ^ n + x % 2 ^ n * 2 ^ (32 - n)

/-- Logical right shift. -/
def shr32 (x n : Nat) : Nat := x / 2 ^ n

/-- 32-bit bitwise complement (for `x < 2^32`). -/
def not32 (x : Nat) : Nat := 4294967295 - x % 4294967296

def bigSigma0 (x : Nat) : Nat := rotr32 x 2 ^^^ rotr32 x 13 ^^^ rotr32 x 22

def bigSigma1 (x : Nat) : Nat := rotr32 x 6 ^^^ rotr32 x 11 ^^^ rotr32 x 25

def smallSigma0 (x : Nat) : Nat := rotr32 x 7 ^^^ rotr32 x 18 ^^^ shr32 x 3

def smallSigma1 (x : Nat) : Nat := rotr32 x 17 ^^^ rotr32 x 19 ^^^ shr32 x 10

def chFn (x y z : Nat) : Nat := x &&& y ^^^ not32 x &&& z

def majFn (x y z : Nat) : Nat := x &&& y ^^^ x &&& z ^^^ y &&& z

/-- The 64 SHA-256 round constants (FIPS 180-4 §4.2.2, written in decimal). -/
def sha256K : List Nat :=
  [1116352408, 1899447441, 3049323471, 3921009573, 961987163, 1508970993, 2453635748,
   2870763221, 3624381080, 310598401, 607225278, 1426881987, 1925078388, 2162078206,
   2614888103, 3248222580, 3835390401, 4022224774, 264347078, 604807628, 770255983,
   1249150122, 1555081692, 1996064986, 2554220882, 2821834349, 2952996808, 3210313671,
   3336571891, 3584528711, 113926993, 338241895, 666307205, 773529912, 1294757372,
   1396182291, 1695183700, 1986661051, 2177026350, 2456956037, 2730485921, 2820302411,
   3259730800, 3345764771, 3516065817, 3600352804, 4094571909, 275423344, 430227734,
   506948616, 659060556, 883997877, 958139571, 1322822218, 1537002063, 1747873779,
   1955562222, 2024104815, 2227730452, 2361852424, 2428436474, 2756734187, 3204031479,
   3329325298]

/-- Working state: eight 32-bit words. -/
structure Hash8 where
  a : Nat
  b : Nat
  c : Nat
  d : Nat
  e : Nat
  f : Nat
  g : Nat
  h : Nat

def sha256H0 : Hash8 :=
  ⟨1779033703, 3144134277, 1013904242, 2773480762, 1359893119, 2600822924, 528734635,
   1541459225⟩

/-- Big-endian 32-bit words from bytes. -/
def bytesToWords : List Nat → List Nat
  | b0 :: b1 :: b2 :: b3 :: rest =>
    (((b0 * 256 + b1) * 256 + b2) * 256 + b3) :: bytesToWords rest
  | _ => []

/-- Extend the 16-word schedule by `k` more words. -/
def sha256Expand (w : List Nat) : Nat → List Nat
  | 0 => w
  | k + 1 =>
    let n := w.length
    let next := w32 (smallSigma1 (w.getD (n - 2) 0) + w.getD (n - 7) 0 +
      smallSigma0 (w.getD (n - 15) 0) + w.getD (n - 16) 0)
    sha256Expand (w ++ [next]) k

/-- One compression round; `kw` is `K[i] + W[i]`. -/
def sha256Round (st : Hash8) (kw : Nat) : Hash8 :=
  let t1 := w32 (st.h + bigSigma1 st.e + chFn st.e st.f st.g + kw)
  let t2 := w32 (bigSigma0 st.a + majFn st.a st.b st.c)
  ⟨w32 (t1 + t2), st.a, st.b, st.c, w32 (st.d + t1), st.e, st.f, st.g⟩

/-- Process one 64-byte block. -/
def sha256Block (st : Hash8) (block : List Nat) : Hash8 :=
  let w := sha256Expand (bytesToWords block) 48
  let kws := List.zipWith (fun k wi => w32 (k + wi)) sha256K w
  let s := kws.foldl sha256Round st
  ⟨w32 (st.a + s.a), w32 (st.b + s.b), w32 (st.c + s.c), w32 (st.d + s.d),
   w32 (st.e + s.e), w32 (st.f + s.f), w32 (st.g + s.g), w32 (st.h + s.h)⟩

/-- 8-byte big-endian encoding (bit length field of the padding). -/
def wordBytes8 (n : Nat) : List Nat :=
  [n / 2 ^ 56 % 256, n / 2 ^ 48 % 256, n / 2 ^ 40 % 256, n / 2 ^ 32 % 256,
   n / 2 ^ 24 % 256, n / 2 ^ 16 % 256, n / 2 ^ 8 % 256, n % 256]

/-- 4-byte big-endian encoding (digest output). -/
def wordBytes4 (n : Nat) : List Nat :=
  [n / 2 ^ 24 % 256, n / 2 ^ 16 % 256, n / 2 ^ 8 % 256, n % 256]

/-- SHA-256 padding: `0x80`, zeros to 56 mod 64, then the 64-bit bit length. -/
def padMessage (m : List Nat) : List Nat :=
  m ++ 128 :: (List.replicate ((120 - (m.length + 1) % 64) % 64) 0 ++ wordBytes8 (8 * m.length))

/-- Split into 64-byte blocks (`fuel` bounds the number of blocks so the recursion is
structural and computable by the kernel; `chunks64` supplies enough fuel). -/
def chunksAux : Nat → List Nat → List (List Nat)
  | 0, _ => []
  | _, [] => []
  | fuel + 1, c :: rest => (c :: rest).take 64 :: chunksAux fuel ((c :: rest).drop 64)

/-- Split into 64-byte blocks. -/
def chunks64 (l : List Nat) : List (List Nat) := chunksAux l.length l

/-- SHA-256 digest (32 bytes) of a byte string. -/
def sha256 (m : List Nat) : List Nat :=
  let s := (chunks64 (padMessage m)).foldl sha256Block sha256H0
  wordBytes4 s.a ++ wordBytes4 s.b ++ wordBytes4 s.c ++ wordBytes4 s.d ++
    wordBytes4 s.e ++ wordBytes4 s.f ++ wordBytes4 s.g ++ wordBytes4 s.h

/-- Lowercase hex digit character. -/
def hexDigitChar (d : Nat) : Nat := if d < 10 then 48 + d else 87 + d

/-- Lowercase hex string (`digest("hex")`). -/
def bytesToHex : List Nat → List Nat
  | [] => []
  | b :: rest => hexDigitChar (b / 16) :: hexDigitChar (b % 16) :: bytesToHex rest

/-- JS `String.prototype.trim()`: strip leading and trailing whitespace. -/
def jsTrim (s : List Nat) : List Nat :=
  ((s.dropWhile fun c => jsWs c).reverse.dropWhile fun c => jsWs c).reverse

/-! ## JSON values and canonical serialization (`fast-json-stable-stringify`)

JSON-serializable records are modelled by `Json`. Numbers are restricted to the
integral values (`Int`), for which JS `'' + node` prints the plain decimal form. -/

inductive Json where
  | null : Json
  | bool (b : Bool) : Json
  | num (n : Int) : Json
  | str (s : List Nat) : Json
  | arr (elems : List Json) : Json
  | obj (fields : List (List Nat × Json)) : Json

/-- JS string comparison `a < b` (UTF-16 code-unit lexicographic); this is the order
used by `Array.prototype.sort()` with no comparator on an array of keys. -/
def strLt : List Nat → List Nat → Bool
  | _, [] => false
  | [], _ :: _ => true
  | a :: as, b :: bs => if a < b then true else if b < a then false else strLt as bs

/-- Key order of the canonical serialization: a field sorts no later than another
iff the other's key is not strictly smaller. -/
def fieldLe (f g : List Nat × List Nat) : Prop := strLt g.1 f.1 = false

instance : DecidableRel fieldLe := fun f g => by
  unfold fieldLe
  infer_instance

/-- `JSON.stringify` escaping of a single code unit inside a string literal. -/
def escapeChar (c : Nat) : List Nat :=
  if c = 34 then [92, 34]
  else if c = 92 then [92, 92]
  else if c = 8 then [92, 98]
  else if c = 9 then [92, 116]
  else if c = 10 then [92, 110]
  else if c = 12 then [92, 102]
  else if c = 13 then [92, 114]
  else if c < 32 then [92, 117, 48, 48, hexDigitChar (c / 16), hexDigitChar (c % 16)]
  else [c]

/-- `JSON.stringify` of a string value. -/
def encodeJsonString (s : List Nat) : List Nat := 34 :: (s.map escapeChar).flatten ++ [34]

/-- Decimal digits of a natural number, most significant first. -/
def natDigitsStr (n : Nat) : List Nat := (Nat.digits 10 n).reverse.map fun d => d + 48

/-- JS `'' + n` for an integral number. -/
def intToStr (n : Int) : List Nat :=
  if n < 0 then 45 :: natDigitsStr n.natAbs
  else if n = 0 then [48]
  else natDigitsStr n.natAbs

/-- Join serialized items with `,` separators (the accumulation loops of the source). -/
def joinComma : List (List Nat) → List Nat
  | [] => []
  | [x] => x
  | x :: y :: rest => x ++ 44 :: joinComma (y :: rest)

mutual

/-- `fast-json-stable-stringify` with default options, producing the canonical JSON
code units. Per the source: arrays are serialized element by element in order;
object fields are serialized with keys sorted by the default sort order. (Here each
field value is serialized first and the resulting key/serialization pairs are then
sorted; this is equivalent to the source's sort-then-serialize because the
comparator inspects keys only.) -/
def stringifyJson : Json → List Nat
  | .null => ascii "null"
  | .bool true => ascii "true"
  | .bool false => ascii "false"
  | .num n => intToStr n
  | .str s => encodeJsonString s
  | .arr xs => 91 :: joinComma (stringifyElems xs) ++ [93]
  | .obj fs =>
    123 :: joinComma ((List.insertionSort fieldLe (stringifyFields fs)).map
      fun f => encodeJsonString f.1 ++ 58 :: f.2) ++ [125]

def stringifyElems : List Json → List (List Nat)
  | [] => []
  | x :: xs => stringifyJson x :: stringifyElems xs

def stringifyFields : List (List Nat × Json) → List (List Nat × List Nat)
  | [] => []
  | (k, v) :: fs => (k, stringifyJson v) :: stringifyFields fs

end

/-- Strong induction over `Json` with access to all members of arrays and objects. -/
theorem jsonInd (P : Json → Prop)
    (hnull : P .null)
    (hbool : ∀ b, P (.bool b))
    (hnum : ∀ n, P (.num n))
    (hstr : ∀ s, P (.str s))
    (harr : ∀ xs, (∀ x ∈ xs, P x) → P (.arr xs))
    (hobj : ∀ fs, (∀ f ∈ fs, P f.2) → P (.obj fs)) : ∀ j, P j := by
  have key : ∀ n j, sizeOf j < n → P j := by
    intro n
    induction n with
    | zero =>
      intro j hj
      omega
    | succ n ih =>
      intro j hj
      cases j with
      | null => exact hnull
      | bool b => exact hbool b
      | num m => exact hnum m
      | str s => exact hstr s
      | arr xs =>
        refine harr xs fun x hx => ih x ?_
        have h1 : sizeOf x < sizeOf xs := List.sizeOf_lt_of_mem hx
        have h2 : sizeOf (Json.arr xs) = 1 + sizeOf xs := by simp
        omega
      | obj fs =>
        refine hobj fs fun f hf => ih f.2 ?_
        have h1 : sizeOf f < sizeOf fs := List.sizeOf_lt_of_mem hf
        have h2 : sizeOf f.2 < sizeOf f := by
          rcases f with ⟨a, b⟩
          simp
        have h3 : sizeOf (Json.obj fs) = 1 + sizeOf fs := by simp
        omega
  exact fun j => key (sizeOf j + 1) j (by omega)

theorem strLt_irrefl : ∀ s : List Nat, strLt s s = false
  | [] => rfl
  | a :: as => by
    simp only [strLt, lt_self_iff_false, if_false]
    exact strLt_irrefl as

theorem strLt_trans : ∀ a b c : List Nat,
    strLt a b = true → strLt b c = true → strLt a c = true
  | _, b, [], _, h2 => by cases b <;> simp [strLt] at h2
  | [], [], _ :: _, h1, _ => by simp [strLt] at h1
  | [], _ :: _, c :: cs, _, _ => rfl
  | _ :: _, [], _ :: _, h1, _ => by simp [strLt] at h1
  | a :: as, b :: bs, c :: cs, h1, h2 => by
    simp only [strLt] at h1 h2 ⊢
    by_cases hab : a < b
    · by_cases hbc : b < c
      · rw [if_pos (by omega)]
      · rw [if_neg hbc] at h2
        by_cases hcb : c < b
        · rw [if_pos hcb] at h2
          exact Bool.noConfusion h2
        · have hbc2 : b = c := by omega
          subst hbc2
          rw [if_pos hab]
    · rw [if_neg hab] at h1
      by_cases hba : b < a
      · rw [if_pos hba] at h1
        exact Bool.noConfusion h1
      · rw [if_neg hba] at h1
        have hab2 : a = b := by omega
        subst hab2
        by_cases hac : a < c
        · rw [if_pos hac]
        · rw [if_neg hac] at h2 ⊢
          by_cases hca : c < a
          · rw [if_pos hca] at h2
            exact Bool.noConfusion h2
          · rw [if_neg hca] at h2 ⊢
            exact strLt_trans as bs cs h1 h2

theorem strLt_asymm (a b : List Nat) (h : strLt a b = true) : strLt b a = false := by
  cases hba : strLt b a with
  | false => rfl
  | true =>
    have htr := strLt_trans a b a h hba
    rw [strLt_irrefl] at htr
    exact Bool.noConfusion htr

theorem strLt_eq_of_both_false : ∀ a b : List Nat,
    strLt a b = false → strLt b a = false → a = b
  | [], [], _, _ => rfl
  | [], _ :: _, h1, _ => by simp [strLt] at h1
  | _ :: _, [], _, h2 => by simp [strLt] at h2
  | a :: as, b :: bs, h1, h2 => by
    by_cases hab : a < b
    · simp [strLt, hab] at h1
    · by_cases hba : b < a
      · simp [strLt, hba, hab] at h2
      · have hEq : a = b := by omega
        subst hEq
        have h1' : strLt as bs = false := by simpa [strLt, hab] using h1
        have h2' : strLt bs as = false := by simpa [strLt, hab] using h2
        rw [strLt_eq_of_both_false as bs h1' h2']

instance : IsTotal (List Nat × List Nat) fieldLe := ⟨fun f g => by
  unfold fieldLe
  cases hfg : strLt g.1 f.1 with
  | false => exact Or.inl rfl
  | true => exact Or.inr (strLt_asymm _ _ hfg)⟩

instance : IsTrans (List Nat × List Nat) fieldLe := ⟨fun f g h hfg hgh => by
  unfold fieldLe at *
  cases hhf : strLt h.1 f.1 with
  | false => rfl
  | true =>
    exfalso
    cases hfg2 : strLt f.1 g.1 with
    | false =>
      have hEq := strLt_eq_of_both_false _ _ hfg2 hfg
      rw [hEq] at hhf
      rw [hhf] at hgh
      exact Bool.noConfusion hgh
    | true =>
      have htr := strLt_trans _ _ _ hhf hfg2
      rw [htr] at hgh
      exact Bool.noConfusion hgh⟩

mutual

/-- Logical identity of JSON records: equal scalars, arrays elementwise equivalent in
order, and objects equal up to a permutation of their fields (with distinct keys, as
in a JS object) with equivalent values. This captures "the same logical record
regardless of key insertion order". -/
def jsonEquiv : Json → Json → Prop
  | .null, .null => True
  | .bool a, .bool b => a = b
  | .num a, .num b => a = b
  | .str a, .str b => a = b
  | .arr xs, .arr ys => jsonEquivElems xs ys
  | .obj fs, .obj gs =>
    (fs.map Prod.fst).Nodup ∧ ∃ gs', List.Perm gs' gs ∧ jsonEquivFields fs gs'
  | _, _ => False

def jsonEquivElems : List Json → List Json → Prop
  | [], [] => True
  | x :: xs, y :: ys => jsonEquiv x y ∧ jsonEquivElems xs ys
  | _, _ => False

def jsonEquivFields : List (List Nat × Json) → List (List Nat × Json) → Prop
  | [], [] => True
  | f :: fs, g :: gs => f.1 = g.1 ∧ jsonEquiv f.2 g.2 ∧ jsonEquivFields fs gs
  | _, _ => False

end

theorem stringifyElems_eq_map : ∀ xs : List Json, stringifyElems xs = xs.map stringifyJson
  | [] => rfl
  | x :: xs => by
    simp only [stringifyElems, List.map_cons, stringifyElems_eq_map xs]

theorem stringifyFields_eq_map : ∀ fs : List (List Nat × Json),
    stringifyFields fs = fs.map fun f => (f.1, stringifyJson f.2)
  | [] => rfl
  | (k, v) :: fs => by
    simp only [stringifyFields, List.map_cons, stringifyFields_eq_map fs]

theorem stringifyFields_map_fst (fs : List (List Nat × Json)) :
    (stringifyFields fs).map Prod.fst = fs.map Prod.fst := by
  rw [stringifyFields_eq_map, List.map_map]
  rfl

/-- Two sorted field lists that are permutations of each other and have pairwise
distinct keys are equal. -/
theorem fieldLe_sorted_perm_eq : ∀ l1 l2 : List (List Nat × List Nat),
    l1.Perm l2 → List.Sorted fieldLe l1 → List.Sorted fieldLe l2 →
    (l1.map Prod.fst).Nodup → l1 = l2
  | [], l2, hp, _, _, _ => (hp.symm.eq_nil).symm
  | a :: t1, [], hp, _, _, _ => absurd hp.eq_nil (by simp)
  | a :: t1, b :: t2, hp, hs1, hs2, hnd => by
    rcases List.sorted_cons.mp hs1 with ⟨ha1, hs1t⟩
    rcases List.sorted_cons.mp hs2 with ⟨hb2, hs2t⟩
    have hnd' := hnd
    simp only [List.map_cons, List.nodup_cons] at hnd'
    have hab : a = b := by
      have hmem : a ∈ b :: t2 := hp.subset (List.mem_cons_self a t1)
      rcases List.mem_cons.mp hmem with h | h
      · exact h
      · have hbmem : b ∈ a :: t1 := hp.symm.subset (List.mem_cons_self b t2)
        rcases List.mem_cons.mp hbmem with h2 | h2
        · exact h2.symm
        · exfalso
          have h3 : fieldLe a b := ha1 b h2
          have h4 : fieldLe b a := hb2 a h
          unfold fieldLe at h3 h4
          have h5 : a.1 = b.1 := strLt_eq_of_both_false a.1 b.1 h4 h3
          exact hnd'.1 (h5 ▸ List.mem_map_of_mem Prod.fst h2)
    subst hab
    have hpt := hp.cons_inv
    rw [fieldLe_sorted_perm_eq t1 t2 hpt hs1t hs2t hnd'.2]

theorem stringifyElems_congr : ∀ xs ys : List Json,
    (∀ x ∈ xs, ∀ y, jsonEquiv x y → stringifyJson x = stringifyJson y) →
    jsonEquivElems xs ys → stringifyElems xs = stringifyElems ys
  | [], [], _, _ => rfl
  | [], _ :: _, _, h => absurd h (by simp [jsonEquivElems])
  | _ :: _, [], _, h => absurd h (by simp [jsonEquivElems])
  | x :: xs, y :: ys, hih, h => by
    simp only [jsonEquivElems] at h
    simp only [stringifyElems]
    rw [hih x (by simp) y h.1, stringifyElems_congr xs ys
      (fun x hx => hih x (by simp [hx])) h.2]

theorem stringifyFields_congr : ∀ fs gs : List (List Nat × Json),
    (∀ f ∈ fs, ∀ y, jsonEquiv f.2 y → stringifyJson f.2 = stringifyJson y) →
    jsonEquivFields fs gs → stringifyFields fs = stringifyFields gs
  | [], [], _, _ => rfl
  | [], _ :: _, _, h => absurd h (by simp [jsonEquivFields])
  | _ :: _, [], _, h => absurd h (by simp [jsonEquivFields])
  | (k, v) :: fs, (k2, v2) :: gs, hih, h => by
    simp only [jsonEquivFields] at h
    simp only [stringifyFields]
    rw [show k = k2 from h.1, hih (k, v) (by simp) v2 h.2.1,
      stringifyFields_congr fs gs (fun f hf => hih f (by simp [hf])) h.2.2]

/-- The canonical serializer maps logically identical records to identical bytes. -/
theorem stringify_respects_equiv : ∀ j1 j2, jsonEquiv j1 j2 →
    stringifyJson j1 = stringifyJson j2 := by
  intro j1
  induction j1 using jsonInd with
  | hnull =>
    intro j2 h
    cases j2 <;> simp only [jsonEquiv] at h
    rfl
  | hbool b =>
    intro j2 h
    cases j2 <;> simp only [jsonEquiv] at h
    rw [h]
  | hnum n =>
    intro j2 h
    cases j2 <;> simp only [jsonEquiv] at h
    rw [h]
  | hstr s =>
    intro j2 h
    cases j2 <;> simp only [jsonEquiv] at h
    rw [h]
  | harr xs ih =>
    intro j2 h
    cases j2 <;> simp only [jsonEquiv] at h
    case arr ys =>
      simp only [stringifyJson]
      rw [stringifyElems_congr xs ys ih h]
  | hobj fs ih =>
    intro j2 h
    cases j2 <;> simp only [jsonEquiv] at h
    case obj gs =>
      obtain ⟨hnd, gs', hperm, hfe⟩ := h
      have h1 : stringifyFields fs = stringifyFields gs' := stringifyFields_congr fs gs' ih hfe
      have h2 : (stringifyFields gs').Perm (stringifyFields gs) := by
        rw [stringifyFields_eq_map, stringifyFields_eq_map]
        exact hperm.map _
      have hpermsort : (List.insertionSort fieldLe (stringifyFields fs)).Perm
          (List.insertionSort fieldLe (stringifyFields gs)) :=
        ((List.perm_insertionSort fieldLe (stringifyFields fs)).trans
          ((h1 ▸ h2 : (stringifyFields fs).Perm (stringifyFields gs)))).trans
          (List.perm_insertionSort fieldLe (stringifyFields gs)).symm
      have hndsort : ((List.insertionSort fieldLe (stringifyFields fs)).map Prod.fst).Nodup := by
        have hp := (List.perm_insertionSort fieldLe (stringifyFields fs)).map Prod.fst
        have hbase : ((stringifyFields fs).map Prod.fst).Nodup := by
          rw [stringifyFields_map_fst]
          exact hnd
        exact hp.nodup_iff.mpr hbase
      have heq := fieldLe_sorted_perm_eq _ _ hpermsort
        (List.sorted_insertionSort fieldLe (stringifyFields fs))
        (List.sorted_insertionSort fieldLe (stringifyFields gs)) hndsort
      simp only [stringifyJson]
      rw [heq]

/-- JSON insignificant whitespace (space, tab, line feed, carriage return). -/
def jsonWs (c : Nat) : Bool := c ∈ [9, 10, 13, 32]

mutual

/-- No raw space (code 32) occurs in any string value or object key of the record.
(All other whitespace code units are escaped by `JSON.stringify` inside string
literals, so a space is the only whitespace that can reach the output.) -/
def spaceFreeJson : Json → Bool
  | .null => true
  | .bool _ => true
  | .num _ => true
  | .str s => s.all fun c => c != 32
  | .arr xs => spaceFreeElems xs
  | .obj fs => spaceFreeFields fs

def spaceFreeElems : List Json → Bool
  | [] => true
  | x :: xs => spaceFreeJson x && spaceFreeElems xs

def spaceFreeFields : List (List Nat × Json) → Bool
  | [] => true
  | f :: fs => (f.1.all fun c => c != 32) && spaceFreeJson f.2 && spaceFreeFields fs

end

theorem jsonWs_eq_false_of_gt (c : Nat) (h : 32 < c) : jsonWs c = false := by
  simp only [jsonWs, List.mem_cons, List.not_mem_nil, or_false, decide_eq_false_iff_not]
  omega

theorem hexDigitChar_ge (d : Nat) : 48 ≤ hexDigitChar d := by
  unfold hexDigitChar
  split <;> omega

theorem intToStr_not_ws (n : Int) : ∀ c ∈ intToStr n, jsonWs c = false := by
  intro c hc
  have hd : ∀ m, ∀ c ∈ natDigitsStr m, jsonWs c = false := by
    intro m c hc
    simp only [natDigitsStr, List.mem_map] at hc
    obtain ⟨d, _, hd⟩ := hc
    exact hd ▸ jsonWs_eq_false_of_gt _ (by omega)
  unfold intToStr at hc
  split at hc
  · rcases List.mem_cons.mp hc with h | h
    · subst h; decide
    · exact hd _ c h
  · split at hc
    · rcases List.mem_cons.mp hc with h | h
      · subst h; decide
      · simp at h
    · exact hd _ c hc

theorem escapeChar_not_ws (c : Nat) (hc : c ≠ 32) : ∀ d ∈ escapeChar c, jsonWs d = false := by
  intro d hd
  unfold escapeChar at hd
  split_ifs at hd with h1 h2 h3 h4 h5 h6 h7 h8
  · rcases List.mem_cons.mp hd with h | h
    · subst h; decide
    · simp only [List.mem_cons, List.not_mem_nil, or_false] at h; subst h; decide
  · rcases List.mem_cons.mp hd with h | h
    · subst h; decide
    · simp only [List.mem_cons, List.not_mem_nil, or_false] at h; subst h; decide
  · rcases List.mem_cons.mp hd with h | h
    · subst h; decide
    · simp only [List.mem_cons, List.not_mem_nil, or_false] at h; subst h; decide
  · rcases List.mem_cons.mp hd with h | h
    · subst h; decide
    · simp only [List.mem_cons, List.not_mem_nil, or_false] at h; subst h; decide
  · rcases List.mem_cons.mp hd with h | h
    · subst h; decide
    · simp only [List.mem_cons, List.not_mem_nil, or_false] at h; subst h; decide
  · rcases List.mem_cons.mp hd with h | h
    · subst h; decide
    · simp only [List.mem_cons, List.not_mem_nil, or_false] at h; subst h; decide
  · rcases List.mem_cons.mp hd with h | h
    · subst h; decide
    · simp only [List.mem_cons, List.not_mem_nil, or_false] at h; subst h; decide
  · simp only [List.mem_cons, List.not_mem_nil, or_false] at hd
    rcases hd with h | h | h | h | h | h
    · subst h; decide
    · subst h; decide
    · subst h; decide
    · subst h; decide
    · subst h; exact jsonWs_eq_false_of_gt _ (by have := hexDigitChar_ge (c / 16); omega)
    · subst h; exact jsonWs_eq_false_of_gt _ (by have := hexDigitChar_ge (c % 16); omega)
  · simp only [List.mem_cons, List.not_mem_nil, or_false] at hd
    subst hd
    exact jsonWs_eq_false_of_gt _ (by omega)

theorem encodeJsonString_not_ws (s : List Nat) (hs : (s.all fun c => c != 32) = true) :
    ∀ c ∈ encodeJsonString s, jsonWs c = false := by
  intro c hc
  unfold encodeJsonString at hc
  rcases List.mem_cons.mp hc with h | h
  · subst h; decide
  · rcases List.mem_append.mp h with h | h
    · rw [List.mem_flatten] at h
      obtain ⟨x, hx, hcx⟩ := h
      rw [List.mem_map] at hx
      obtain ⟨a, ha, hax⟩ := hx
      have ha32 : a ≠ 32 := by
        have := List.all_eq_true.mp hs a ha
        simpa using this
      exact escapeChar_not_ws a ha32 c (hax ▸ hcx)
    · simp only [List.mem_cons, List.not_mem_nil, or_false] at h
      subst h; decide

theorem joinComma_mem : ∀ l : List (List Nat), ∀ c ∈ joinComma l, c = 44 ∨ ∃ x ∈ l, c ∈ x
  | [], c, hc => by simp [joinComma] at hc
  | [x], c, hc => by
    right
    exact ⟨x, by simp, by simpa [joinComma] using hc⟩
  | x :: y :: rest, c, hc => by
    simp only [joinComma] at hc
    rcases List.mem_append.mp hc with h | h
    · exact Or.inr ⟨x, by simp, h⟩
    · rcases List.mem_cons.mp h with h | h
      · exact Or.inl h
      · rcases joinComma_mem (y :: rest) c h with h | ⟨z, hz, hcz⟩
        · exact Or.inl h
        · exact Or.inr ⟨z, by simp [List.mem_cons.mp hz], hcz⟩

theorem spaceFreeElems_mem : ∀ xs : List Json, spaceFreeElems xs = true →
    ∀ x ∈ xs, spaceFreeJson x = true
  | [], _, x, hx => by simp at hx
  | y :: ys, h, x, hx => by
    simp only [spaceFreeElems, Bool.and_eq_true] at h
    rcases List.mem_cons.mp hx with h2 | h2
    · exact h2 ▸ h.1
    · exact spaceFreeElems_mem ys h.2 x h2

theorem spaceFreeFields_mem : ∀ fs : List (List Nat × Json), spaceFreeFields fs = true →
    ∀ f ∈ fs, (f.1.all fun c => c != 32) = true ∧ spaceFreeJson f.2 = true
  | [], _, f, hf => by simp at hf
  | g :: gs, h, f, hf => by
    simp only [spaceFreeFields, Bool.and_eq_true] at h
    rcases List.mem_cons.mp hf with h2 | h2
    · exact h2 ▸ ⟨h.1.1, h.1.2⟩
    · exact spaceFreeFields_mem gs h.2 f h2

/-- No whitespace code unit occurs in the canonical serialization of a record whose
strings and keys are free of raw spaces. -/
theorem stringify_no_ws : ∀ j, spaceFreeJson j = true →
    ∀ c ∈ stringifyJson j, jsonWs c = false := by
  intro j
  induction j using jsonInd with
  | hnull =>
    intro _ c hc
    have : stringifyJson .null = ascii "null" := by simp [stringifyJson]
    rw [this] at hc
    revert hc
    revert c
    decide
  | hbool b =>
    intro _ c hc
    cases b with
    | true =>
      have : stringifyJson (.bool true) = ascii "true" := by simp [stringifyJson]
      rw [this] at hc
      revert hc
      revert c
      decide
    | false =>
      have : stringifyJson (.bool false) = ascii "false" := by simp [stringifyJson]
      rw [this] at hc
      revert hc
      revert c
      decide
  | hnum n =>
    intro _ c hc
    have : stringifyJson (.num n) = intToStr n := by simp [stringifyJson]
    rw [this] at hc
    exact intToStr_not_ws n c hc
  | hstr s =>
    intro hsf c hc
    have : stringifyJson (.str s) = encodeJsonString s := by simp [stringifyJson]
    rw [this] at hc
    simp only [spaceFreeJson] at hsf
    exact encodeJsonString_not_ws s hsf c hc
  | harr xs ih =>
    intro hsf c hc
    simp only [spaceFreeJson] at hsf
    have : stringifyJson (.arr xs) = 91 :: joinComma (stringifyElems xs) ++ [93] := by
      simp [stringifyJson]
    rw [this] at hc
    rcases List.mem_cons.mp hc with h | h
    · subst h; decide
    · rcases List.mem_append.mp h with h | h
      · rcases joinComma_mem _ c h with h | ⟨x, hx, hcx⟩
        · subst h; decide
        · rw [stringifyElems_eq_map, List.mem_map] at hx
          obtain ⟨j0, hj0, hj0x⟩ := hx
          exact ih j0 hj0 (spaceFreeElems_mem xs hsf j0 hj0) c (hj0x ▸ hcx)
      · simp only [List.mem_cons, List.not_mem_nil, or_false] at h
        subst h; decide
  | hobj fs ih =>
    intro hsf c hc
    simp only [spaceFreeJson] at hsf
    have : stringifyJson (.obj fs) =
        123 :: joinComma ((List.insertionSort fieldLe (stringifyFields fs)).map
          fun f => encodeJsonString f.1 ++ 58 :: f.2) ++ [125] := by
      simp [stringifyJson]
    rw [this] at hc
    rcases List.mem_cons.mp hc with h | h
    · subst h; decide
    · rcases List.mem_append.mp h with h | h
      · rcases joinComma_mem _ c h with h | ⟨x, hx, hcx⟩
        · subst h; decide
        · rw [List.mem_map] at hx
          obtain ⟨f, hf, hfx⟩ := hx
          have hf2 : f ∈ stringifyFields fs := by
            have := (List.perm_insertionSort fieldLe (stringifyFields fs)).subset hf
            exact this
          rw [stringifyFields_eq_map, List.mem_map] at hf2
          obtain ⟨g, hg, hgf⟩ := hf2
          obtain ⟨hkey, hval⟩ := spaceFreeFields_mem fs hsf g hg
          subst hfx
          rw [← hgf] at hcx
          rcases List.mem_append.mp hcx with h | h
          · exact encodeJsonString_not_ws g.1 hkey c h
          · rcases List.mem_cons.mp h with h | h
            · subst h; decide
            · exact ih g hg hval c h
      · simp only [List.mem_cons, List.not_mem_nil, or_false] at h
        subst h; decide

/-! ## Idealized Ed25519 (libsodium primitives used by the source) -/

/-- Idealized detached Ed25519 signature value. libsodium signing is deterministic,
so a signature is a function of the secret key and the message; idealizing
unforgeability and non-malleability (EUF-CMA), a signature is *accepted* exactly
when it is the one produced with the matching secret key over the same message. We
therefore represent the signature value by the pair it binds. -/
structure SigBytes where
  sk : List Nat
  message : List Nat
deriving DecidableEq

/-- A libsodium Ed25519 secret key is 64 bytes whose last 32 bytes are the public
key; `crypto_sign_ed25519_sk_to_pk` extracts them. -/
def crypto_sign_ed25519_sk_to_pk (sk : List Nat) : List Nat := sk.drop 32

/-- `sodium.crypto_sign_detached`. -/
def crypto_sign_detached (message privateKey : List Nat) : SigBytes :=
  ⟨privateKey, message⟩

/-- `sodium.crypto_sign_verify_detached` (idealized as above). -/
def crypto_sign_verify_detached (sig : SigBytes) (message publicKey : List Nat) : Bool :=
  crypto_sign_ed25519_sk_to_pk sig.sk == publicKey && sig.message == message

/-- A string offered as a base64-encoded signature: either the canonical base64 of a
signature value (decoding recovers the value), or a malformed string on which
libsodium's strict `from_base64` (or the signature length check) throws. -/
inductive SigB64 where
  | wellFormed (sig : SigBytes)
  | malformed (junk : Nat)
deriving DecidableEq

/-- Decoding a signature string; `none` models the throw on malformed input. -/
def sigFromBase64 : SigB64 → Option SigBytes
  | .wellFormed sig => some sig
  | .malformed _ => none

/-! ## IdentityManager (identity.ts) -/

structure IdentityManager where
  privateKey : List Nat
  publicKey : List Nat

/-- A keypair as produced by `sodium.crypto_sign_keypair` /
`crypto_sign_seed_keypair` / `fromPrivateKey`: the stored public key is the one
embedded in the 64-byte secret key, is 32 bytes long, and consists of bytes. -/
def IdentityManager.wellFormed (im : IdentityManager) : Prop :=
  im.publicKey = crypto_sign_ed25519_sk_to_pk im.privateKey ∧
    im.publicKey.length = 32 ∧ ∀ b ∈ im.publicKey, b < 256

/-- `IdentityManager.sign`: detached signature over the message, base64-encoded. -/
def IdentityManager.sign (im : IdentityManager) (message : List Nat) : SigB64 :=
  .wellFormed (crypto_sign_detached message im.privateKey)

/-- `IdentityManager.verify` (static): decode the base64 signature and verify it;
the `try`/`catch` turns any exception into `false`, so the function always returns
a boolean. -/
def IdentityManager.verify (message : List Nat) (signatureBase64 : SigB64)
    (publicKey : List Nat) : Bool :=
  match sigFromBase64 signatureBase64 with
  | some sig => crypto_sign_verify_detached sig message publicKey
  | none => false

/-- `IdentityManager.getAgentId`: lowercase-hex SHA-256 digest of the trimmed
public-key PEM. -/
def IdentityManager.getAgentId (im : IdentityManager) : List Nat :=
  bytesToHex (sha256 (jsTrim (getPublicKeyPem im.publicKey)))

/-- `IdentityManager.getCanonicalJsonBytes` (static): `fast-json-stable-stringify`
then UTF-8 encoding. -/
def getCanonicalJsonBytes (payload : Json) : List Nat := stringifyJson payload

/-! ## AmorceEnvelope (envelope.ts) -/

structure SenderInfo where
  public_key : List Nat
  agent_id : Option (List Nat)

structure SettlementInfo where
  amount : Int
  currency : List Nat
  facilitation_fee : Int

/-- `AmorceEnvelope`: the constructor sets `natp_version`, a fresh `id`, the
`priority`, the current `timestamp` (restricted to integral values here), `sender`,
`payload` and a zeroed `settlement`; `signature` is absent (`none`) until `sign`. -/
structure AmorceEnvelope where
  natp_version : List Nat
  id : List Nat
  priority : List Nat
  timestamp : Int
  sender : SenderInfo
  payload : Json
  settlement : SettlementInfo
  signature : Option SigB64

def SenderInfo.toJson (s : SenderInfo) : Json :=
  .obj ((ascii "public_key", Json.str s.public_key) ::
    (match s.agent_id with
     | some a => [(ascii "agent_id", Json.str a)]
     | none => []))

def SettlementInfo.toJson (st : SettlementInfo) : Json :=
  .obj [(ascii "amount", Json.num st.amount), (ascii "currency", Json.str st.currency),
    (ascii "facilitation_fee", Json.num st.facilitation_fee)]

/-- The enumerable own fields of the envelope other than `signature`
(`const { signature, ...dataToSign } = this`), as the JSON record handed to
`fast-json-stable-stringify`. -/
def envelopeData (e : AmorceEnvelope) : Json :=
  .obj [(ascii "natp_version", Json.str e.natp_version),
    (ascii "id", Json.str e.id),
    (ascii "priority", Json.str e.priority),
    (ascii "timestamp", Json.num e.timestamp),
    (ascii "sender", e.sender.toJson),
    (ascii "payload", e.payload),
    (ascii "settlement", e.settlement.toJson)]

/-- `AmorceEnvelope.getCanonicalJson`: canonical bytes of every field except
`signature`. -/
def AmorceEnvelope.getCanonicalJson (e : AmorceEnvelope) : List Nat :=
  stringifyJson (envelopeData e)

/-- `AmorceEnvelope.sign`: store the base64 signature over the canonical bytes. -/
def AmorceEnvelope.sign (e : AmorceEnvelope) (identity : IdentityManager) : AmorceEnvelope :=
  { e with signature := some (identity.sign e.getCanonicalJson) }

inductive VerifyError where
  | validationError
deriving DecidableEq

/-- `AmorceEnvelope.verify`: throws `AmorceValidationError` when no signature is
present, or when PEM decoding of `sender.public_key` throws inside the `try` (the
`catch` rethrows as `AmorceValidationError`); otherwise returns the boolean from
`IdentityManager.verify` over the recomputed canonical bytes. -/
def AmorceEnvelope.verify (e : AmorceEnvelope) : Except VerifyError Bool :=
  match e.signature with
  | none => .error .validationError
  | some sigStr =>
    match pemToBytes e.sender.public_key with
    | none => .error .validationError
    | some publicKeyBytes =>
      .ok (IdentityManager.verify e.getCanonicalJson sigStr publicKeyBytes)

/-- The canonical bytes never depend on the `signature` field. -/
theorem getCanonicalJson_signature_irrel (e : AmorceEnvelope) (sig : Option SigB64) :
    AmorceEnvelope.getCanonicalJson { e with signature := sig } =
      AmorceEnvelope.getCanonicalJson e := rfl

/-! ## AmorceClient (client.ts: undici transport wrapped in p-retry) -/

/-- An HTTP response as observed by one attempt: status code, the text of the body
(`body.text()`, used for error reporting) and the parsed JSON body (`body.json()`;
`none` models a body whose JSON parsing throws). -/
structure HttpResponse where
  statusCode : Nat
  bodyText : List Nat
  jsonBody : Option Json

/-- Truthiness of a JSON value under JS coercion (`x || y`). -/
def jsTruthy : Json → Bool
  | .null => false
  | .bool b => b
  | .num n => n != 0
  | .str s => !s.isEmpty
  | .arr _ => true
  | .obj _ => true

/-- JS property access on a parsed JSON object; `none` is `undefined`. -/
def Json.getField : Json → List Nat → Option Json
  | .obj fs, k => (fs.find? fun f => f.1 == k).map Prod.snd
  | _, _ => none

/-- What the callback wrapped in `pRetry` does with one response: return it, throw a
plain retryable `Error`, or throw an `AmorceAPIError` with status and body text. -/
inductive AttemptOutcome where
  | success (res : HttpResponse)
  | retryableErr (status : Nat)
  | apiErr (status : Nat) (body : List Nat)

/-- The response classification inside `transact`'s pRetry callback:
`[429, 503, 504]` throw a retryable `Error`; other 4xx throw `AmorceAPIError` with
the body text; `>= 500` throws a retryable `Error`; anything else resolves. -/
def transactClassify (res : HttpResponse) : AttemptOutcome :=
  if res.statusCode = 429 ∨ res.statusCode = 503 ∨ res.statusCode = 504 then
    .retryableErr res.statusCode
  else if 400 ≤ res.statusCode ∧ res.statusCode < 500 ∧ res.statusCode ≠ 429 then
    .apiErr res.statusCode res.bodyText
  else if 500 ≤ res.statusCode then
    .retryableErr res.statusCode
  else
    .success res

/-- The response classification inside `discover`'s pRetry callback:
`[429, 503, 504]` throw a retryable `Error`; any other non-200 status throws
`AmorceAPIError`; 200 resolves. -/
def discoverClassify (res : HttpResponse) : AttemptOutcome :=
  if res.statusCode = 429 ∨ res.statusCode = 503 ∨ res.statusCode = 504 then
    .retryableErr res.statusCode
  else if res.statusCode ≠ 200 then
    .apiErr res.statusCode res.bodyText
  else
    .success res

/-- Final state of the `pRetry` promise. -/
inductive RetryResult where
  | resolved (res : HttpResponse)
  | rejected (lastError : AttemptOutcome)

/-- Model of `p-retry` with the options used by the source (`retries: 3`): the
wrapped callback issues one HTTP request per attempt (always the same request
`req`, captured by the closure); a resolved attempt ends the loop; every thrown
error is a failed attempt — p-retry aborts early only on its own `AbortError`,
which the SDK never throws — and is retried while retries remain, after which the
promise rejects with the error of the failing attempts (all relevant scenarios fail
uniformly, so "most frequent error" and "last error" coincide). Returns the
requests actually issued together with the final state. `idx` is the 0-based index
of the current attempt and `remaining` the retries left. -/
def pRetryRun {ρ : Type} (req : ρ) (transport : Nat → HttpResponse)
    (classify : HttpResponse → AttemptOutcome) : Nat → Nat → List ρ × RetryResult
  | idx, 0 =>
    match classify (transport idx) with
    | .success res => ([req], .resolved res)
    | e => ([req], .rejected e)
  | idx, remaining + 1 =>
    match classify (transport idx) with
    | .success res => ([req], .resolved res)
    | _ =>
      let pr := pRetryRun req transport classify (idx + 1) remaining
      (req :: pr.1, pr.2)

/-- `ServiceContract`: only `service_id` is read by `transact`; `[]` models a
missing or empty (falsy) value. -/
structure ServiceContract where
  service_id : List Nat

structure AmorceClient where
  identity : IdentityManager
  directoryUrl : List Nat
  orchestratorUrl : List Nat
  agentId : List Nat
  apiKey : Option (List Nat)

/-- JS `url.replace(/\/$/, "")`: drop one trailing slash. -/
def stripTrailingSlash (url : List Nat) : List Nat :=
  if url.getLast? = some 47 then url.dropLast else url

inductive ClientError where
  | configError
deriving DecidableEq

/-- The `AmorceClient` constructor: both URLs must start with `http://` or
`https://` (otherwise `AmorceConfigError` is thrown), trailing slashes are
stripped, and the agent id is `agentId || identity.getAgentId()` (so an absent or
empty argument falls back to the derived id). -/
def mkAmorceClient (identity : IdentityManager) (directoryUrl orchestratorUrl : List Nat)
    (agentId : Option (List Nat)) (apiKey : Option (List Nat)) :
    Except ClientError AmorceClient :=
  if ¬ ((ascii "http://").isPrefixOf directoryUrl ∨ (ascii "https://").isPrefixOf directoryUrl) then
    .error .configError
  else if ¬ ((ascii "http://").isPrefixOf orchestratorUrl ∨
      (ascii "https://").isPrefixOf orchestratorUrl) then
    .error .configError
  else
    .ok { identity := identity
          directoryUrl := stripTrailingSlash directoryUrl
          orchestratorUrl := stripTrailingSlash orchestratorUrl
          agentId := match agentId with
            | some a => if a = [] then identity.getAgentId else a
            | none => identity.getAgentId
          apiKey := apiKey }

/-- The headers object built once per `transact` call and sent on every attempt. -/
structure TransactHeaders where
  xAgentSignature : SigB64
  xAmorceIdempotency : List Nat
  xAmorceAgentId : List Nat
  contentType : List Nat
  xApiKey : Option (List Nat)

/-- One POST request as issued by an attempt of `transact`. -/
structure SentRequest where
  url : List Nat
  headers : TransactHeaders
  body : Json

structure AmorceResult where
  status : Json
  message : Option Json
  data : Option Json

/-- `AmorceResponseImpl` as constructed on success. -/
structure AmorceResponse where
  transaction_id : Json
  status_code : Nat
  result : Option AmorceResult
  error : Option (List Nat)

inductive TransactOutcome where
  | response (r : AmorceResponse)
  | configError
  | apiError (status : Nat) (body : List Nat)
  | networkError

/-- Everything observable about one `transact` call: the requests issued (in
order), the detached signature that was computed (`none` when the call failed
before signing), the idempotency key attached (`none` when the call failed before
it was chosen), and the terminal outcome. -/
structure TransactResult where
  sentRequests : List SentRequest
  signature : Option SigB64
  idempotencyKey : Option (List Nat)
  outcome : TransactOutcome

/-- `x || y` on an optional string (JS: `undefined` and `""` are falsy). -/
def orElseStr (x : Option (List Nat)) (y : List Nat) : List Nat :=
  match x with
  | some s => if s = [] then y else s
  | none => y

/-- Mapping from the final pRetry state to `transact`'s terminal outcome: a resolved
response has its JSON body mapped into an `AmorceResponseImpl` (with
`jsonData.transaction_id || key` and `jsonData.status || "success"`; a JSON parse
throw becomes a network error in the outer `catch`); a rejected `AmorceAPIError` is
rethrown as-is; every other rejection is wrapped in `AmorceNetworkError`. -/
def transactOutcomeOf (key : List Nat) (r : RetryResult) : TransactOutcome :=
  match r with
  | .resolved res =>
    match res.jsonBody with
    | none => .networkError
    | some jsonData =>
      .response
        { transaction_id :=
            match jsonData.getField (ascii "transaction_id") with
            | some v => if jsTruthy v then v else .str key
            | none => .str key
          status_code := res.statusCode
          result := some
            { status :=
                match jsonData.getField (ascii "status") with
                | some v => if jsTruthy v then v else .str (ascii "success")
                | none => .str (ascii "success")
              message := jsonData.getField (ascii "message")
              data := jsonData.getField (ascii "data") }
          error := none }
  | .rejected (.apiErr s b) => .apiError s b
  | .rejected _ => .networkError

/-- Model of `AmorceClient.transact`. `freshUuid` stands for the value `uuidv4()`
generates for this call (used only when the caller supplies no, or an empty,
idempotency key); `transport` gives the HTTP response each attempt receives
(indexed by 0-based attempt number). -/
def AmorceClient.transact (client : AmorceClient) (serviceContract : ServiceContract)
    (payload : Json) (priority : List Nat) (idempotencyKey : Option (List Nat))
    (freshUuid : List Nat) (transport : Nat → HttpResponse) : TransactResult :=
  if serviceContract.service_id = [] then
    { sentRequests := [], signature := none, idempotencyKey := none,
      outcome := .configError }
  else
    let key := orElseStr idempotencyKey freshUuid
    let requestBody : Json := .obj
      [(ascii "service_id", .str serviceContract.service_id),
       (ascii "consumer_agent_id", .str client.agentId),
       (ascii "payload", payload),
       (ascii "priority", .str priority)]
    let signature := client.identity.sign (getCanonicalJsonBytes requestBody)
    let headers : TransactHeaders :=
      { xAgentSignature := signature
        xAmorceIdempotency := key
        xAmorceAgentId := client.agentId
        contentType := ascii "application/json"
        xApiKey := client.apiKey }
    let req : SentRequest :=
      { url := client.orchestratorUrl ++ ascii "/v1/a2a/transact"
        headers := headers
        body := requestBody }
    let pr := pRetryRun req transport transactClassify 0 3
    { sentRequests := pr.1
      signature := some signature
      idempotencyKey := some key
      outcome := transactOutcomeOf key pr.2 }

/-- One GET request as issued by an attempt of `discover`. -/
structure GetRequest where
  url : List Nat

inductive DiscoverOutcome where
  | ok (body : Json)
  | apiError (status : Nat) (body : List Nat)
  | networkError

/-- RFC 3986 unreserved characters plus `! ~ * ' ( )` (the set `encodeURIComponent`
leaves unescaped). -/
def isUriUnreserved (c : Nat) : Bool :=
  (65 ≤ c && c ≤ 90) || (97 ≤ c && c ≤ 122) || (48 ≤ c && c ≤ 57) ||
    c ∈ [45, 95, 46, 33, 126, 42, 39, 40, 41]

def hexDigitCharUpper (d : Nat) : Nat := if d < 10 then 48 + d else 55 + d

/-- `encodeURIComponent` (for code points below 128). -/
def encodeURIComponent (s : List Nat) : List Nat :=
  (s.map fun c =>
    if isUriUnreserved c then [c]
    else [37, hexDigitCharUpper (c / 16), hexDigitCharUpper (c % 16)]).flatten

/-- Mapping from the final pRetry state to `discover`'s terminal outcome: a resolved
response yields its parsed JSON body (a parse throw becomes a network error in the
outer `catch`); a rejected `AmorceAPIError` is rethrown; every other rejection is
wrapped in `AmorceNetworkError`. -/
def discoverOutcomeOf (r : RetryResult) : DiscoverOutcome :=
  match r with
  | .resolved res =>
    match res.jsonBody with
    | none => .networkError
    | some j => .ok j
  | .rejected (.apiErr s b) => .apiError s b
  | .rejected _ => .networkError

/-- The GET request issued by every attempt of a `discover` call. -/
def discoverRequest (client : AmorceClient) (serviceType : List Nat) : GetRequest :=
  { url := client.directoryUrl ++ ascii "/api/v1/services/search?service_type=" ++
      encodeURIComponent serviceType }

/-- Model of `AmorceClient.discover`: GET through pRetry with the discover
classification. -/
def AmorceClient.discover (client : AmorceClient) (serviceType : List Nat)
    (transport : Nat → HttpResponse) : List GetRequest × DiscoverOutcome :=
  let pr := pRetryRun (discoverRequest client serviceType) transport discoverClassify 0 3
  (pr.1, discoverOutcomeOf pr.2)

/-! ## Helper lemmas about the retry loop -/

theorem pRetryRun_const_error {ρ : Type} (req : ρ) (transport : Nat → HttpResponse)
    (classify : HttpResponse → AttemptOutcome) (e : AttemptOutcome)
    (hfail : ∀ r, e ≠ .success r) (h : ∀ i, classify (transport i) = e) :
    ∀ idx n, pRetryRun req transport classify idx n =
      (List.replicate (n + 1) req, .rejected e) := by
  intro idx n
  induction n generalizing idx with
  | zero =>
    rw [pRetryRun, h idx]
    cases e with
    | success r => exact absurd rfl (hfail r)
    | retryableErr s => rfl
    | apiErr s b => rfl
  | succ n ih =>
    rw [pRetryRun, h idx]
    cases e with
    | success r => exact absurd rfl (hfail r)
    | retryableErr s =>
      rw [ih (idx + 1)]
      exact rfl
    | apiErr s b =>
      rw [ih (idx + 1)]
      exact rfl

theorem pRetryRun_requests_const {ρ : Type} (req : ρ) (transport : Nat → HttpResponse)
    (classify : HttpResponse → AttemptOutcome) :
    ∀ n idx, ∀ r ∈ (pRetryRun req transport classify idx n).1, r = req := by
  intro n
  induction n with
  | zero =>
    intro idx r hr
    rw [pRetryRun] at hr
    cases hcl : classify (transport idx) with
    | success res =>
      rw [hcl] at hr
      have hr' : r ∈ [req] := hr
      simpa using hr'
    | retryableErr s =>
      rw [hcl] at hr
      have hr' : r ∈ [req] := hr
      simpa using hr'
    | apiErr s b =>
      rw [hcl] at hr
      have hr' : r ∈ [req] := hr
      simpa using hr'
  | succ n ih =>
    intro idx r hr
    rw [pRetryRun] at hr
    cases hcl : classify (transport idx) with
    | success res =>
      rw [hcl] at hr
      have hr' : r ∈ [req] := hr
      simpa using hr'
    | retryableErr s =>
      rw [hcl] at hr
      have hr' : r ∈ req :: (pRetryRun req transport classify (idx + 1) n).1 := hr
      rcases List.mem_cons.mp hr' with h | h
      · exact h
      · exact ih (idx + 1) r h
    | apiErr s b =>
      rw [hcl] at hr
      have hr' : r ∈ req :: (pRetryRun req transport classify (idx + 1) n).1 := hr
      rcases List.mem_cons.mp hr' with h | h
      · exact h
      · exact ih (idx + 1) r h

/-! ## Claim theorems -/

/-- **C3.** For every valid 32-byte Ed25519 public key `k`, encoding `k` to PEM
(`getPublicKeyPem`: the fixed 12-byte SubjectPublicKeyInfo header concatenated with
`k`, base64-encoded, framed by BEGIN/END PUBLIC KEY lines) and decoding back with
`pemToBytes` recovers exactly `k`. -/
theorem claim_C3_pem_roundtrip (k : List Nat) (hlen : k.length = 32)
    (hbytes : ∀ b ∈ k, b < 256) : pemToBytes (getPublicKeyPem k) = some k :=
  pemToBytes_getPublicKeyPem k hlen hbytes

theorem claim_C3_pem_roundtrip_witness :
    (List.range 32).length = 32 ∧ (∀ b ∈ List.range 32, b < 256) ∧
      pemToBytes (getPublicKeyPem (List.range 32)) = some (List.range 32) :=
  ⟨by decide, by decide, claim_C3_pem_roundtrip (List.range 32) (by decide) (by decide)⟩

/-- **C7.** `IdentityManager.verify` never throws: it returns a boolean for every
input, and a malformed base64 signature string (on which decoding throws inside
the `try`) yields `false`. -/
theorem claim_C7_verify_total : ∀ (message publicKey : List Nat) (junk : Nat),
    IdentityManager.verify message (.malformed junk) publicKey = false ∧
    ∀ sigStr : SigB64, IdentityManager.verify message sigStr publicKey = true ∨
      IdentityManager.verify message sigStr publicKey = false := by
  intro message publicKey junk
  constructor
  · rfl
  · intro sigStr
    cases IdentityManager.verify message sigStr publicKey
    · exact Or.inr rfl
    · exact Or.inl rfl

/-- **C8.** When the service contract's `service_id` is missing or empty (falsy),
`transact` fails with a configuration error before any signing or network
activity: no signature is computed and no request is issued. -/
theorem claim_C8_config_fail_fast (client : AmorceClient) (contract : ServiceContract)
    (payload : Json) (priority : List Nat) (idempotencyKey : Option (List Nat))
    (freshUuid : List Nat) (transport : Nat → HttpResponse)
    (hsid : contract.service_id = []) :
    (client.transact contract payload priority idempotencyKey freshUuid transport).outcome
        = .configError ∧
    (client.transact contract payload priority idempotencyKey freshUuid transport).sentRequests
        = [] ∧
    (client.transact contract payload priority idempotencyKey freshUuid transport).signature
        = none := by
  unfold AmorceClient.transact
  rw [if_pos hsid]
  exact ⟨rfl, rfl, rfl⟩

/-- Concrete identity used by witnesses: the 64-byte secret key `0,…,63` carrying
the 32-byte public key `32,…,63`. -/
def idW : IdentityManager :=
  { privateKey := List.range 64, publicKey := (List.range 64).drop 32 }

def clientW : AmorceClient :=
  { identity := idW
    directoryUrl := ascii "http://directory"
    orchestratorUrl := ascii "http://orchestrator"
    agentId := ascii "agent-1"
    apiKey := none }

def transportW : Nat → HttpResponse :=
  fun _ => { statusCode := 200, bodyText := [], jsonBody := some (.obj []) }

theorem claim_C8_config_fail_fast_witness :
    (⟨[]⟩ : ServiceContract).service_id = [] ∧
    (clientW.transact ⟨[]⟩ (.str (ascii "p")) (ascii "normal") none (ascii "uuid-1")
        transportW).outcome = .configError ∧
    (clientW.transact ⟨[]⟩ (.str (ascii "p")) (ascii "normal") none (ascii "uuid-1")
        transportW).sentRequests = [] ∧
    (clientW.transact ⟨[]⟩ (.str (ascii "p")) (ascii "normal") none (ascii "uuid-1")
        transportW).signature = none := by
  refine ⟨rfl, ?_⟩
  have h := claim_C8_config_fail_fast clientW ⟨[]⟩ (.str (ascii "p")) (ascii "normal") none
    (ascii "uuid-1") transportW rfl
  exact ⟨h.1, h.2.1, h.2.2⟩

/-- **C1.** Signing an envelope with identity `I` (`AmorceEnvelope.sign`) makes
`verify()` return `true` when checked against `I`'s own public key carried in
`sender.public_key`; and an envelope carrying that signature whose canonical bytes
were altered after signing (e.g. any single byte of the canonical payload changed),
with any still-decodable sender key, makes `verify()` return `false`. -/
theorem claim_C1_sign_verify (identity : IdentityManager) (e : AmorceEnvelope)
    (hwf : identity.wellFormed)
    (hpk : e.sender.public_key = getPublicKeyPem identity.publicKey) :
    (e.sign identity).verify = .ok true ∧
    ∀ (e2 : AmorceEnvelope) (pk2 : List Nat),
      e2.signature = (e.sign identity).signature →
      pemToBytes e2.sender.public_key = some pk2 →
      e2.getCanonicalJson ≠ e.getCanonicalJson →
      e2.verify = .ok false := by
  obtain ⟨hpkeq, hlen, hbytes⟩ := hwf
  have hpem : pemToBytes (getPublicKeyPem identity.publicKey) = some identity.publicKey :=
    pemToBytes_getPublicKeyPem identity.publicKey hlen hbytes
  have hsigval : (e.sign identity).signature =
      some (.wellFormed ⟨identity.privateKey, e.getCanonicalJson⟩) := rfl
  constructor
  · have hcan : (e.sign identity).getCanonicalJson = e.getCanonicalJson := rfl
    have hspk : (e.sign identity).sender.public_key = e.sender.public_key := rfl
    unfold AmorceEnvelope.verify
    rw [hsigval]
    simp only [hspk, hpk, hpem, hcan]
    have hpkeq' : identity.publicKey = identity.privateKey.drop 32 := hpkeq
    show Except.ok (identity.privateKey.drop 32 == identity.publicKey &&
      (e.getCanonicalJson == e.getCanonicalJson)) = Except.ok true
    rw [← hpkeq']
    simp
  · intro e2 pk2 hsig2 hpem2 hne
    unfold AmorceEnvelope.verify
    rw [hsig2, hsigval, hpem2]
    have hmsg : (e.getCanonicalJson == e2.getCanonicalJson) = false :=
      beq_eq_false_iff_ne.mpr fun h => hne h.symm
    show Except.ok (identity.privateKey.drop 32 == pk2 &&
      (e.getCanonicalJson == e2.getCanonicalJson)) = Except.ok false
    rw [hmsg]
    simp

def envW : AmorceEnvelope :=
  { natp_version := ascii "0.1.0"
    id := ascii "id-1"
    priority := ascii "normal"
    timestamp := 0
    sender := { public_key := getPublicKeyPem ((List.range 64).drop 32), agent_id := none }
    payload := .str (ascii "hello")
    settlement := { amount := 0, currency := ascii "USD", facilitation_fee := 0 }
    signature := none }

theorem claim_C1_sign_verify_witness :
    idW.wellFormed ∧ envW.sender.public_key = getPublicKeyPem idW.publicKey ∧
      (envW.sign idW).verify = .ok true := by
  have hwf : idW.wellFormed := ⟨by decide, by decide, by decide⟩
  exact ⟨hwf, rfl, (claim_C1_sign_verify idW envW hwf rfl).1⟩

/-- **C2.** The canonical codec (`fast-json-stable-stringify` as used by
`getCanonicalJsonBytes` / `getCanonicalJson`): (a) an object serializes as exactly
its field list sorted by the JS key order, and that list is sorted; (b) the output
contains no insignificant whitespace; (c) logically identical records — the same
fields in any key insertion order, at every nesting level — yield byte-identical
output; (d) arrays are serialized verbatim in element order; (e) for an envelope
the `signature` field is excluded from the canonicalized data. -/
theorem claim_C2_canonical_codec :
    (∀ fs : List (List Nat × Json),
      stringifyJson (.obj fs) =
        123 :: joinComma ((List.insertionSort fieldLe (stringifyFields fs)).map
          fun f => encodeJsonString f.1 ++ 58 :: f.2) ++ [125] ∧
      List.Sorted fieldLe (List.insertionSort fieldLe (stringifyFields fs))) ∧
    (∀ j, spaceFreeJson j = true → ∀ c ∈ stringifyJson j, jsonWs c = false) ∧
    (∀ j1 j2, jsonEquiv j1 j2 → stringifyJson j1 = stringifyJson j2) ∧
    (∀ xs : List Json,
      stringifyJson (.arr xs) = 91 :: joinComma (xs.map stringifyJson) ++ [93]) ∧
    (∀ (e : AmorceEnvelope) (sig : Option SigB64),
      AmorceEnvelope.getCanonicalJson { e with signature := sig } =
        AmorceEnvelope.getCanonicalJson e) := by
  refine ⟨?_, stringify_no_ws, stringify_respects_equiv, ?_, getCanonicalJson_signature_irrel⟩
  · intro fs
    exact ⟨by simp [stringifyJson], List.sorted_insertionSort fieldLe _⟩
  · intro xs
    simp [stringifyJson, stringifyElems_eq_map]

def fA : List Nat × Json := (ascii "b", .num 0)

def fB : List Nat × Json := (ascii "a", .str (ascii "x"))

def jA : Json := .obj [fA, fB]

def jB : Json := .obj [fB, fA]

theorem jA_equiv_jB : jsonEquiv jA jB := by
  unfold jA jB
  simp only [jsonEquiv]
  refine ⟨by decide, ⟨[fA, fB], List.Perm.swap fB fA [], ?_⟩⟩
  simp [jsonEquivFields, jsonEquiv, fA, fB]

theorem jA_spaceFree : spaceFreeJson jA = true := by
  simp only [jA, fA, fB]
  simp [spaceFreeJson, spaceFreeFields]
  decide

theorem claim_C2_canonical_codec_witness :
    jsonEquiv jA jB ∧ stringifyJson jA = stringifyJson jB ∧
      spaceFreeJson jA = true ∧ ∀ c ∈ stringifyJson jA, jsonWs c = false :=
  ⟨jA_equiv_jB, claim_C2_canonical_codec.2.2.1 jA jB jA_equiv_jB, jA_spaceFree,
   claim_C2_canonical_codec.2.1 jA jA_spaceFree⟩

/-! ## Shape of a `transact` call that passes validation -/

/-- The flat request body object built by `transact`. -/
def transactBody (client : AmorceClient) (contract : ServiceContract) (payload : Json)
    (priority : List Nat) : Json :=
  .obj [(ascii "service_id", .str contract.service_id),
        (ascii "consumer_agent_id", .str client.agentId),
        (ascii "payload", payload),
        (ascii "priority", .str priority)]

/-- The one request value sent by every attempt of a `transact` call. -/
def transactRequest (client : AmorceClient) (contract : ServiceContract) (payload : Json)
    (priority : List Nat) (ik : Option (List Nat)) (uuid : List Nat) : SentRequest :=
  { url := client.orchestratorUrl ++ ascii "/v1/a2a/transact"
    headers :=
      { xAgentSignature :=
          client.identity.sign (getCanonicalJsonBytes (transactBody client contract payload priority))
        xAmorceIdempotency := orElseStr ik uuid
        xAmorceAgentId := client.agentId
        contentType := ascii "application/json"
        xApiKey := client.apiKey }
    body := transactBody client contract payload priority }

theorem transact_sentRequests (client : AmorceClient) (contract : ServiceContract)
    (payload : Json) (priority : List Nat) (ik : Option (List Nat)) (uuid : List Nat)
    (transport : Nat → HttpResponse) (hsid : contract.service_id ≠ []) :
    (client.transact contract payload priority ik uuid transport).sentRequests =
      (pRetryRun (transactRequest client contract payload priority ik uuid) transport
        transactClassify 0 3).1 := by
  unfold AmorceClient.transact
  rw [if_neg hsid]
  exact rfl

theorem transact_idempotencyKey (client : AmorceClient) (contract : ServiceContract)
    (payload : Json) (priority : List Nat) (ik : Option (List Nat)) (uuid : List Nat)
    (transport : Nat → HttpResponse) (hsid : contract.service_id ≠ []) :
    (client.transact contract payload priority ik uuid transport).idempotencyKey =
      some (orElseStr ik uuid) := by
  unfold AmorceClient.transact
  rw [if_neg hsid]

theorem transact_outcome (client : AmorceClient) (contract : ServiceContract)
    (payload : Json) (priority : List Nat) (ik : Option (List Nat)) (uuid : List Nat)
    (transport : Nat → HttpResponse) (hsid : contract.service_id ≠ []) :
    (client.transact contract payload priority ik uuid transport).outcome =
      transactOutcomeOf (orElseStr ik uuid)
        (pRetryRun (transactRequest client contract payload priority ik uuid) transport
          transactClassify 0 3).2 := by
  unfold AmorceClient.transact
  rw [if_neg hsid]
  exact rfl

theorem discover_parts (client : AmorceClient) (serviceType : List Nat)
    (transport : Nat → HttpResponse) :
    (client.discover serviceType transport).1 =
      (pRetryRun (discoverRequest client serviceType) transport discoverClassify 0 3).1 ∧
    (client.discover serviceType transport).2 =
      discoverOutcomeOf
        (pRetryRun (discoverRequest client serviceType) transport discoverClassify 0 3).2 :=
  ⟨rfl, rfl⟩

/-- **C5.** If every HTTP attempt returns status 503, one `transact` call (with a
valid contract) and one `discover` call each perform exactly 4 attempts (1 initial
+ 3 retries) — never a fifth — and terminate with an `AmorceNetworkError`. -/
theorem claim_C5_retry_exhaustion (client : AmorceClient) (contract : ServiceContract)
    (payload : Json) (priority : List Nat) (ik : Option (List Nat)) (uuid : List Nat)
    (serviceType : List Nat) (res : HttpResponse)
    (hsid : contract.service_id ≠ []) (h503 : res.statusCode = 503) :
    (client.transact contract payload priority ik uuid fun _ => res).sentRequests.length = 4 ∧
    (client.transact contract payload priority ik uuid fun _ => res).outcome = .networkError ∧
    (client.discover serviceType fun _ => res).1.length = 4 ∧
    (client.discover serviceType fun _ => res).2 = .networkError := by
  have hclt : transactClassify res = .retryableErr res.statusCode := by
    unfold transactClassify
    rw [if_pos (Or.inr (Or.inl h503))]
  have hcld : discoverClassify res = .retryableErr res.statusCode := by
    unfold discoverClassify
    rw [if_pos (Or.inr (Or.inl h503))]
  have hrunt := pRetryRun_const_error
    (transactRequest client contract payload priority ik uuid) (fun _ => res)
    transactClassify (.retryableErr res.statusCode) (fun r => by simp) (fun _ => hclt) 0 3
  have hrund := pRetryRun_const_error (discoverRequest client serviceType) (fun _ => res)
    discoverClassify (.retryableErr res.statusCode) (fun r => by simp) (fun _ => hcld) 0 3
  refine ⟨?_, ?_, ?_, ?_⟩
  · rw [transact_sentRequests client contract payload priority ik uuid _ hsid, hrunt]
    simp
  · rw [transact_outcome client contract payload priority ik uuid _ hsid, hrunt]
    rfl
  · rw [(discover_parts client serviceType _).1, hrund]
    simp
  · rw [(discover_parts client serviceType _).2, hrund]
    rfl

def svcW : ServiceContract := ⟨ascii "svc"⟩

def res503 : HttpResponse := { statusCode := 503, bodyText := ascii "busy", jsonBody := none }

theorem claim_C5_retry_exhaustion_witness :
    svcW.service_id ≠ [] ∧ res503.statusCode = 503 ∧
    (clientW.transact svcW (.str (ascii "p")) (ascii "normal") none (ascii "uuid-1")
      fun _ => res503).sentRequests.length = 4 ∧
    (clientW.transact svcW (.str (ascii "p")) (ascii "normal") none (ascii "uuid-1")
      fun _ => res503).outcome = .networkError ∧
    (clientW.discover (ascii "svc") fun _ => res503).1.length = 4 ∧
    (clientW.discover (ascii "svc") fun _ => res503).2 = .networkError := by
  have h := claim_C5_retry_exhaustion clientW svcW (.str (ascii "p")) (ascii "normal") none
    (ascii "uuid-1") (ascii "svc") res503 (by decide) rfl
  exact ⟨by decide, rfl, h.1, h.2.1, h.2.2.1, h.2.2.2⟩

def res404 : HttpResponse :=
  { statusCode := 404, bodyText := ascii "not found", jsonBody := none }

def transact404 : TransactResult :=
  clientW.transact svcW (.str (ascii "p")) (ascii "normal") none (ascii "uuid-1")
    fun _ => res404

/-- **C4 (counterexample).** With every attempt answered by HTTP 404, `transact`
does *not* terminate after the first response: the thrown `AmorceAPIError` is
itself retried by p-retry (which aborts only on its own `AbortError`), so 4
requests are issued — the full retry budget — before the call ends with the fatal
`AmorceAPIError`. This refutes "terminates immediately ... with zero additional
attempts". -/
theorem claim_C4_counterexample :
    transact404.sentRequests.length = 4 ∧ transact404.sentRequests.length ≠ 1 ∧
    transact404.outcome = .apiError 404 (ascii "not found") :=
  ⟨by decide, by decide, rfl⟩

/-- **C4 (amended).** In `transact`, a response with status 429, 503 or 504 makes
the attempt throw a retryable error, and any other 4xx (e.g. 404 or 400) makes it
throw an `AmorceAPIError` carrying the status code and response body; however
p-retry retries *every* rejection, so a persistent non-429 4xx also consumes the
full retry budget (4 attempts, not 1) before `transact` terminates with that fatal
`AmorceAPIError`, while persistent 429/503/504 ends in an `AmorceNetworkError`
after the same 4 attempts. -/
theorem claim_C4_amended (client : AmorceClient) (contract : ServiceContract)
    (payload : Json) (priority : List Nat) (ik : Option (List Nat)) (uuid : List Nat)
    (res : HttpResponse) (hsid : contract.service_id ≠ []) :
    ((res.statusCode = 429 ∨ res.statusCode = 503 ∨ res.statusCode = 504) →
      (client.transact contract payload priority ik uuid
        fun _ => res).sentRequests.length = 4 ∧
      (client.transact contract payload priority ik uuid fun _ => res).outcome =
        .networkError) ∧
    ((400 ≤ res.statusCode ∧ res.statusCode < 500 ∧ res.statusCode ≠ 429) →
      (client.transact contract payload priority ik uuid
        fun _ => res).sentRequests.length = 4 ∧
      (client.transact contract payload priority ik uuid fun _ => res).outcome =
        .apiError res.statusCode res.bodyText) := by
  constructor
  · intro h
    have hclt : transactClassify res = .retryableErr res.statusCode := by
      unfold transactClassify
      rw [if_pos h]
    have hrunt := pRetryRun_const_error
      (transactRequest client contract payload priority ik uuid) (fun _ => res)
      transactClassify (.retryableErr res.statusCode) (fun r => by simp) (fun _ => hclt) 0 3
    constructor
    · rw [transact_sentRequests client contract payload priority ik uuid _ hsid, hrunt]
      simp
    · rw [transact_outcome client contract payload priority ik uuid _ hsid, hrunt]
      rfl
  · intro h
    have hne : ¬ (res.statusCode = 429 ∨ res.statusCode = 503 ∨ res.statusCode = 504) := by
      have h1 := h.1
      have h2 := h.2.1
      have h3 := h.2.2
      omega
    have hclt : transactClassify res = .apiErr res.statusCode res.bodyText := by
      unfold transactClassify
      rw [if_neg hne, if_pos h]
    have hrunt := pRetryRun_const_error
      (transactRequest client contract payload priority ik uuid) (fun _ => res)
      transactClassify (.apiErr res.statusCode res.bodyText) (fun r => by simp)
      (fun _ => hclt) 0 3
    constructor
    · rw [transact_sentRequests client contract payload priority ik uuid _ hsid, hrunt]
      simp
    · rw [transact_outcome client contract payload priority ik uuid _ hsid, hrunt]
      rfl

theorem claim_C4_amended_witness :
    (400 ≤ res404.statusCode ∧ res404.statusCode < 500 ∧ res404.statusCode ≠ 429) ∧
    (clientW.transact svcW (.str (ascii "p")) (ascii "normal") none (ascii "uuid-1")
      fun _ => res404).sentRequests.length = 4 ∧
    (clientW.transact svcW (.str (ascii "p")) (ascii "normal") none (ascii "uuid-1")
      fun _ => res404).outcome = .apiError res404.statusCode res404.bodyText := by
  have h := (claim_C4_amended clientW svcW (.str (ascii "p")) (ascii "normal") none
    (ascii "uuid-1") res404 (by decide)).2 (by decide)
  exact ⟨by decide, h.1, h.2⟩

/-- **C9.** Within one `transact` call, the idempotency key — the caller's when
supplied and non-empty, otherwise the freshly generated UUID — is chosen once, and
that identical key is the `X-Amorce-Idempotency` header of every request issued by
the call, retries included. -/
theorem claim_C9_idempotency_key (client : AmorceClient) (contract : ServiceContract)
    (payload : Json) (priority : List Nat) (ik : Option (List Nat)) (uuid : List Nat)
    (transport : Nat → HttpResponse) (hsid : contract.service_id ≠ []) :
    (client.transact contract payload priority ik uuid transport).idempotencyKey =
      some (orElseStr ik uuid) ∧
    (∀ k, ik = some k → k ≠ [] → orElseStr ik uuid = k) ∧
    (ik = none → orElseStr ik uuid = uuid) ∧
    ∀ r ∈ (client.transact contract payload priority ik uuid transport).sentRequests,
      r.headers.xAmorceIdempotency = orElseStr ik uuid := by
  refine ⟨transact_idempotencyKey client contract payload priority ik uuid transport hsid,
    ?_, ?_, ?_⟩
  · intro k hk hne
    rw [hk]
    show (if k = [] then uuid else k) = k
    rw [if_neg hne]
  · intro h
    rw [h]
    rfl
  · intro r hr
    rw [transact_sentRequests client contract payload priority ik uuid transport hsid] at hr
    have heq := pRetryRun_requests_const
      (transactRequest client contract payload priority ik uuid) transport transactClassify
      3 0 r hr
    rw [heq]
    rfl

theorem claim_C9_idempotency_key_witness :
    svcW.service_id ≠ [] ∧
    ((clientW.transact svcW (.str (ascii "p")) (ascii "normal") (some (ascii "key-9"))
        (ascii "uuid-1") transportW).idempotencyKey =
      some (orElseStr (some (ascii "key-9")) (ascii "uuid-1")) ∧
    (∀ k, some (ascii "key-9") = some k → k ≠ [] →
      orElseStr (some (ascii "key-9")) (ascii "uuid-1") = k) ∧
    (some (ascii "key-9") = none →
      orElseStr (some (ascii "key-9")) (ascii "uuid-1") = ascii "uuid-1") ∧
    ∀ r ∈ (clientW.transact svcW (.str (ascii "p")) (ascii "normal")
        (some (ascii "key-9")) (ascii "uuid-1") transportW).sentRequests,
      r.headers.xAmorceIdempotency = orElseStr (some (ascii "key-9")) (ascii "uuid-1")) :=
  ⟨by decide, claim_C9_idempotency_key clientW svcW (.str (ascii "p")) (ascii "normal")
    (some (ascii "key-9")) (ascii "uuid-1") transportW (by decide)⟩

/-! ## Agent id facts -/

theorem bytesToHex_length : ∀ bs : List Nat, (bytesToHex bs).length = 2 * bs.length
  | [] => rfl
  | b :: rest => by
    simp only [bytesToHex, List.length_cons, bytesToHex_length rest]
    omega

theorem sha256_length (m : List Nat) : (sha256 m).length = 32 := by
  unfold sha256
  simp [wordBytes4]

theorem getAgentId_length (im : IdentityManager) : im.getAgentId.length = 64 := by
  unfold IdentityManager.getAgentId
  rw [bytesToHex_length, sha256_length]

theorem getAgentId_ne_nil (im : IdentityManager) : im.getAgentId ≠ [] := by
  intro h
  have hl := getAgentId_length im
  rw [h] at hl
  simp at hl

theorem wordBytes4_lt (n : Nat) : ∀ b ∈ wordBytes4 n, b < 256 := by
  unfold wordBytes4
  intro b hb
  simp only [List.mem_cons, List.not_mem_nil, or_false] at hb
  rcases hb with h | h | h | h <;> subst h <;> omega

theorem sha256_bytes_lt (m : List Nat) : ∀ b ∈ sha256 m, b < 256 := by
  unfold sha256
  intro b hb
  simp only [List.mem_append] at hb
  rcases hb with ((((((h | h) | h) | h) | h) | h) | h) | h <;> exact wordBytes4_lt _ _ h

theorem hexDigitChar_range (d : Nat) (hd : d ≤ 15) :
    (48 ≤ hexDigitChar d ∧ hexDigitChar d ≤ 57) ∨
      (97 ≤ hexDigitChar d ∧ hexDigitChar d ≤ 102) := by
  unfold hexDigitChar
  split <;> omega

theorem bytesToHex_chars : ∀ bs : List Nat, (∀ b ∈ bs, b < 256) →
    ∀ c ∈ bytesToHex bs, (48 ≤ c ∧ c ≤ 57) ∨ (97 ≤ c ∧ c ≤ 102)
  | [], _, c, hc => by simp [bytesToHex] at hc
  | b :: rest, h, c, hc => by
    simp only [bytesToHex, List.mem_cons] at hc
    have hb : b < 256 := h b (by simp)
    rcases hc with h1 | h1 | h1
    · subst h1
      exact hexDigitChar_range _ (by omega)
    · subst h1
      exact hexDigitChar_range _ (by omega)
    · exact bytesToHex_chars rest (fun x hx => h x (by simp [hx])) c h1

/-- **C6.** `getAgentId()` is the lowercase-hex SHA-256 digest of the trimmed
PEM-encoded public key (64 characters drawn from `0-9`/`a-f`), and it is a pure,
deterministic function of the public key: two `IdentityManager`s built from the
same key material produce identical agent ids. -/
theorem claim_C6_agent_id :
    (∀ im : IdentityManager,
      im.getAgentId = bytesToHex (sha256 (jsTrim (getPublicKeyPem im.publicKey))) ∧
      im.getAgentId.length = 64 ∧
      ∀ c ∈ im.getAgentId, (48 ≤ c ∧ c ≤ 57) ∨ (97 ≤ c ∧ c ≤ 102)) ∧
    ∀ im1 im2 : IdentityManager, im1.publicKey = im2.publicKey →
      im1.getAgentId = im2.getAgentId := by
  constructor
  · intro im
    refine ⟨rfl, getAgentId_length im, ?_⟩
    unfold IdentityManager.getAgentId
    exact bytesToHex_chars _ (sha256_bytes_lt _)
  · intro im1 im2 h
    unfold IdentityManager.getAgentId
    rw [h]

/-- A second identity with different private key material but the same public key. -/
def idW2 : IdentityManager := { privateKey := [], publicKey := (List.range 64).drop 32 }

theorem claim_C6_agent_id_witness :
    idW.publicKey = idW2.publicKey ∧ idW.getAgentId = idW2.getAgentId :=
  ⟨rfl, claim_C6_agent_id.2 idW idW2 rfl⟩

/-! ## Consumer agent id in the request body -/

theorem transactBody_consumer_field (client : AmorceClient) (contract : ServiceContract)
    (payload : Json) (priority : List Nat) :
    (transactBody client contract payload priority).getField (ascii "consumer_agent_id") =
      some (.str client.agentId) := by
  unfold transactBody
  have hg : ∀ (fs : List (List Nat × Json)) k,
      Json.getField (.obj fs) k = (List.find? (fun f => f.1 == k) fs).map Prod.snd :=
    fun _ _ => rfl
  rw [hg]
  rw [List.find?_cons_of_neg _ (by
      show ¬ (ascii "service_id" == ascii "consumer_agent_id") = true
      decide),
    List.find?_cons_of_pos _ (by
      show (ascii "consumer_agent_id" == ascii "consumer_agent_id") = true
      decide)]
  rfl

/-- **C10.** When the constructor receives no agent id (or an empty one, which is
falsy), the client's agent id is `identity.getAgentId()`; it is non-empty, fixed
at construction, and every request of every `transact` call carries it both as the
`X-Amorce-Agent-ID` header and as the `consumer_agent_id` body field. -/
theorem claim_C10_agent_id_default (identity : IdentityManager)
    (directoryUrl orchestratorUrl : List Nat) (agentIdArg apiKey : Option (List Nat))
    (client : AmorceClient)
    (hagent : agentIdArg = none ∨ agentIdArg = some [])
    (hmk : mkAmorceClient identity directoryUrl orchestratorUrl agentIdArg apiKey =
      .ok client) :
    client.agentId = identity.getAgentId ∧ client.agentId ≠ [] ∧
    ∀ (contract : ServiceContract) (payload : Json) (priority : List Nat)
      (ik : Option (List Nat)) (uuid : List Nat) (transport : Nat → HttpResponse),
      contract.service_id ≠ [] →
      ∀ r ∈ (client.transact contract payload priority ik uuid transport).sentRequests,
        r.headers.xAmorceAgentId = identity.getAgentId ∧
        r.body.getField (ascii "consumer_agent_id") =
          some (.str identity.getAgentId) := by
  have hagentid : client.agentId = identity.getAgentId := by
    unfold mkAmorceClient at hmk
    by_cases hA : ((ascii "http://").isPrefixOf directoryUrl = true ∨
      (ascii "https://").isPrefixOf directoryUrl = true)
    · rw [if_neg (not_not_intro hA)] at hmk
      by_cases hB : ((ascii "http://").isPrefixOf orchestratorUrl = true ∨
        (ascii "https://").isPrefixOf orchestratorUrl = true)
      · rw [if_neg (not_not_intro hB)] at hmk
        simp only [Except.ok.injEq] at hmk
        rw [← hmk]
        rcases hagent with ha | ha
        · rw [ha]
        · rw [ha]
          simp
      · rw [if_pos hB] at hmk
        simp at hmk
    · rw [if_pos hA] at hmk
      simp at hmk
  refine ⟨hagentid, by rw [hagentid]; exact getAgentId_ne_nil identity, ?_⟩
  intro contract payload priority ik uuid transport hsid r hr
  rw [transact_sentRequests client contract payload priority ik uuid transport hsid] at hr
  have heq := pRetryRun_requests_const
    (transactRequest client contract payload priority ik uuid) transport transactClassify
    3 0 r hr
  rw [heq]
  constructor
  · show client.agentId = identity.getAgentId
    exact hagentid
  · rw [show (transactRequest client contract payload priority ik uuid).body =
      transactBody client contract payload priority from rfl,
      transactBody_consumer_field, hagentid]

def clientC10 : AmorceClient :=
  { identity := idW
    directoryUrl := ascii "http://d"
    orchestratorUrl := ascii "http://o"
    agentId := idW.getAgentId
    apiKey := none }

theorem claim_C10_agent_id_default_witness :
    mkAmorceClient idW (ascii "http://d") (ascii "http://o") none none = .ok clientC10 ∧
    clientC10.agentId = idW.getAgentId ∧ clientC10.agentId ≠ [] := by
  have hmk : mkAmorceClient idW (ascii "http://d") (ascii "http://o") none none =
      .ok clientC10 := rfl
  have h := claim_C10_agent_id_default idW (ascii "http://d") (ascii "http://o") none none
    clientC10 (Or.inl rfl) hmk
  exact ⟨hmk, h.1, h.2.1⟩

end AmorceSdk










